import Mathlib

/-!
Verification development for the avail-light data-availability light client.

The embedding translates the two source files of the repository:
  src/src/main.rs            (header loop, confidence codec)
  src/src/network/client.rs  (DHT client batch operations)

Modelling conventions, stated once here and referenced by the doc comments
below:
  * Machine integers are modelled as Nat; where wrap-around or overflow
    matters the bound is stated explicitly.
  * The f64/f32 floating-point values are modelled on the rationals; every
    doc comment of a definition that touches floating point states which
    operations are exact and where the model abstracts.
  * Fallible Rust code returning Result is modelled with Except, and
    panics (unwrap on an error) are modelled as an explicit outcome.
  * DHT record keys are UTF-8 bytes of a reference string in the source;
    since UTF-8 encoding is injective, keys are modelled as the String
    itself, and byte identity of keys is string identity.
  * The network side effects of the client are made observable by
    returning, next to the result, the list of commands the operation
    sends to the DHT actor.
-/

namespace AvailLight

/-- Commitment size in bytes, from the kate-recovery configuration used by
src/src/network/client.rs; together with the chunk size it gives the fixed
80-byte cell content length that the source checks (the error string in
fetch_cell_from_dht names 80 bytes, and main.rs slices proofs in steps
of 80). -/
def COMMITMENT_SIZE : Nat := 48

/-- Chunk size in bytes, from the kate-recovery configuration used by
src/src/network/client.rs. -/
def CHUNK_SIZE : Nat := 32

/-- Matrix cell coordinate, from kate-recovery, as used by
src/src/network/client.rs. -/
structure Position where
  row : Nat
  col : Nat
deriving DecidableEq

/-- Modelled from the spec: the reference key derivation of kate-recovery
(only its callers are in src/). A pure, deterministic function of the block
number and the coordinate; identical inputs yield identical keys. The exact
textual format is not visible in src/, so it is modelled as a colon
separated rendering of block, row and column. -/
def Position.reference (p : Position) (block : Nat) : String :=
  toString block ++ ":" ++ toString p.row ++ ":" ++ toString p.col

/-- Matrix cell, from kate-recovery as used by src/src/network/client.rs:
a coordinate plus the fixed-length content buffer. The content is a byte
list; the 80-byte length invariant is enforced at the decode boundary in
fetch_cell_from_dht, as in the source. -/
structure Cell where
  position : Position
  content : List Nat
deriving DecidableEq

/-- Modelled from the spec: the cell reference of kate-recovery delegates
to the reference of its position, a pure function of block number and
coordinate. -/
def Cell.reference (c : Cell) (block : Nat) : String :=
  c.position.reference block

/-- Quorum values of the libp2p kademlia interface used by
src/src/network/client.rs. -/
inductive Quorum where
  | one : Quorum
  | majority : Quorum
  | all : Quorum
  | nOf : Nat → Quorum
deriving DecidableEq

/-- DHT record, from the libp2p kademlia interface as constructed in
src/src/network/client.rs: key bytes (modelled as the reference string),
value bytes, optional publisher, and an expiry. The source sets the expiry
to the current instant plus the configured ttl; wall-clock time is not
modelled, so the expiry field carries the ttl in seconds. -/
structure Record where
  key : String
  value : List Nat
  publisher : Option Nat
  expires : Option Nat
deriving DecidableEq

/-- Peer record returned by a kademlia get, wrapping a record, from the
libp2p interface used in src/src/network/client.rs. -/
structure PeerRecord where
  record : Record
deriving DecidableEq

/-- Command vocabulary of the DHT actor, from the Command enum at the
bottom of src/src/network/client.rs. The one-shot reply channels of the
source variants are not data and are omitted; multiaddresses and peer ids
are opaque strings and numbers. -/
inductive Command where
  | startListening (addr : String) : Command
  | addAddress (peerId : Nat) (addr : String) : Command
  | stream : Command
  | bootstrap : Command
  | getKadRecord (key : String) (quorum : Quorum) : Command
  | putKadRecord (record : Record) (quorum : Quorum) : Command
deriving DecidableEq

/-- Environment of the DHT client: what the actor event loop answers to a
get command for a given key, and whether a put command for a given record
succeeds. An error on the get side covers both a failed query and a
dropped channel; the batch operations treat every error alike. -/
structure DhtEnv where
  getResponse : String → Except Unit (List PeerRecord)
  putOk : Record → Bool

/-- Translated from src/src/main.rs, calculate_confidence: the Rust source
computes 100f64 * (1f64 - 1f64 / 2u32.pow(count) as f64). For count at
most 31 every floating-point step is exact (the power of two converts
exactly, the reciprocal of a power of two is exact, and the final short
dyadic values are exact in f64), so the result is faithfully the rational
100 * (1 - 1 / 2 ^ count). For count at least 32 the u32 power overflows:
under checked arithmetic the call panics, and under wrapping arithmetic
the power wraps to 0 and the division produces a non-finite value; in
neither build mode is a finite number matching the formula produced, which
is modelled as none. -/
def calculate_confidence (count : Nat) : Option ℚ :=
  if count < 32 then some (100 * (1 - 1 / 2 ^ count)) else none

/-- Translated from src/src/main.rs, serialised_confidence: the packed
value _block << 32 | _factor computed on BigUint, where _factor is
(10f64.powi(7) * factor) as u64. BigUint arithmetic is exact arbitrary
precision arithmetic and is modelled on Nat with the same shift and or
operations. The saturating Rust cast as u64 truncates toward zero, which
for the nonnegative in-range factors is the floor; the f64 product is
modelled exactly on the rationals. -/
def serialisedValue (block : Nat) (factor : ℚ) : Nat :=
  (block <<< 32) ||| (Int.toNat ⌊(10 : ℚ) ^ 7 * factor⌋)

/-- Decimal digit rendering of a natural number, most significant digit
first. Modelled from the spec: the source calls to_str_radix(10) of the
external num crate on the packed BigUint, producing its decimal string. -/
def toDecimalString (n : Nat) : String :=
  if n = 0 then "0" else ((Nat.digits 10 n).reverse.map Nat.digitChar).asString

/-- Translated from src/src/main.rs, serialised_confidence: the decimal
string of the packed value. -/
def serialised_confidence (block : Nat) (factor : ℚ) : String :=
  toDecimalString (serialisedValue block factor)

/-- Standard decimal parse of a string back to a natural number, folding
the digits most significant first; this is the integer parse the round
trip property of the spec refers to. -/
def parseDecimal (s : String) : Nat :=
  s.data.foldl (fun n c => n * 10 + (c.toNat - 48)) 0

/-- Translated from src/src/network/client.rs, DHTCell::dht_record: the
record written for a cell has the reference string of the cell as key,
the cell content as value, no publisher, and expiry now plus ttl (time
abstracted to the ttl itself, see the module header). The source wraps the
cell in the DHTCell newtype; the wrapper carries no data and the function
is modelled directly on the cell. -/
def DHTCell.dht_record (c : Cell) (block : Nat) (ttl : Nat) : Record :=
  { key := c.reference block
    value := c.content
    publisher := none
    expires := some ttl }

/-- Translated from src/src/network/client.rs, fetch_cell_from_dht.
Returns the list of commands sent to the actor together with the result.
The source derives the record key from the reference of the position,
issues one get with quorum one, propagates a query error, returns none
when the record list is empty (a soft miss), takes only the first record
otherwise, and converts its value into the fixed 80-byte content, failing
with a hard error when the length differs. -/
def fetch_cell_from_dht (env : DhtEnv) (block : Nat) (position : Position) :
    List Command × Except String (Option Cell) :=
  let record_key := position.reference block
  ([Command.getKadRecord record_key Quorum.one],
    match env.getResponse record_key with
    | Except.error _ => Except.error "failed to get record"
    | Except.ok peer_records =>
      match peer_records with
      | [] => Except.ok none
      | peer_record :: _ =>
        if peer_record.record.value.length = COMMITMENT_SIZE + CHUNK_SIZE then
          Except.ok (some { position := position, content := peer_record.record.value })
        else
          Except.error "Cannot convert record into 80 bytes")

/-- Collects a list of fallible results into a fallible list, stopping at
the first error; this is the Rust collect of an iterator of Results into
a Result of Vec used in fetch_cells_from_dht. -/
def collectExcept : List (Except ε α) → Except ε (List α)
  | [] => Except.ok []
  | Except.error e :: _ => Except.error e
  | Except.ok a :: rest =>
    match collectExcept rest with
    | Except.error e => Except.error e
    | Except.ok as_ => Except.ok (a :: as_)

/-- Structural worker for chunksOf: the fuel bounds the number of chunks
and is initialised with the list length, which always suffices. -/
def chunksOfAux (n : Nat) : Nat → List α → List (List α)
  | _, [] => []
  | 0, l => [l]
  | fuel + 1, x :: xs => (x :: xs.take (n - 1)) :: chunksOfAux n fuel (xs.drop (n - 1))

/-- Splits a list into consecutive chunks of size n, modelling the Rust
slice chunks iterator used in fetch_cells_from_dht. The Rust iterator
requires a positive chunk size (it panics on zero); for zero this model
produces chunks of size one, and the theorems below that depend on
faithful chunking take a positive limit as hypothesis. -/
def chunksOf (n : Nat) (l : List α) : List (List α) :=
  chunksOfAux n l.length l

/-- One chunk of the fetch batch: the source maps fetch_cell_from_dht over
the chunk, awaits all of them (so every position of the chunk is queried,
hence all commands appear in the trace), and collects the results,
stopping at the first error. -/
def fetchChunk (env : DhtEnv) (block : Nat) (chunk : List Position) :
    List Command × Except String (List (Option Cell)) :=
  let results := chunk.map (fetch_cell_from_dht env block)
  ((results.map Prod.fst).flatten, collectExcept (results.map Prod.snd))

/-- Sequential loop over the chunks of the fetch batch: chunk n completes
before chunk n+1 starts, and an error in a chunk stops the loop (later
chunks issue no commands) and aborts the whole call. -/
def fetchChunksLoop (env : DhtEnv) (block : Nat) :
    List (List Position) → List Command × Except String (List (Option Cell))
  | [] => ([], Except.ok [])
  | chunk :: rest =>
    let step := fetchChunk env block chunk
    match step.2 with
    | Except.error e => (step.1, Except.error e)
    | Except.ok cells =>
      let next := fetchChunksLoop env block rest
      (step.1 ++ next.1,
        match next.2 with
        | Except.error e => Except.error e
        | Except.ok more => Except.ok (cells ++ more))

/-- Translated from src/src/network/client.rs, fetch_cells_from_dht: the
positions are processed in chunks of the parallelization limit; on success
the aligned option results are zipped with the input positions, the
positions with a missing cell form the unfetched list, and the present
cells are flattened into the fetched list, both in input order. -/
def fetch_cells_from_dht (env : DhtEnv) (limit : Nat) (block : Nat)
    (positions : List Position) :
    List Command × Except String (List Cell × List Position) :=
  let run := fetchChunksLoop env block (chunksOf limit positions)
  (run.1,
    match run.2 with
    | Except.error e => Except.error e
    | Except.ok cells =>
      let unfetched :=
        ((cells.zip positions).filter (fun cp => cp.1.isNone)).map Prod.snd
      let fetched := cells.filterMap id
      Except.ok (fetched, unfetched))

/-- Translated from src/src/network/client.rs, insert_into_dht: an empty
cell list returns 1.0 immediately, sending nothing; otherwise one put with
quorum one is attempted for every cell (concurrently in the source, with
no retry and no rollback; the multiset of issued commands is modelled in
input order), a shared counter counts the failed puts, and the call
returns 1 - failures / total as the success rate. The f32 arithmetic of
the final expression is modelled exactly on the rationals. -/
def insert_into_dht (env : DhtEnv) (ttl : Nat) (block : Nat) (cells : List Cell) :
    List Command × ℚ :=
  if cells.isEmpty then ([], 1)
  else
    let records := cells.map (fun c => DHTCell.dht_record c block ttl)
    let failures := (records.filter (fun r => !env.putOk r)).length
    (records.map (fun r => Command.putKadRecord r Quorum.one),
      1 - (failures : ℚ) / (cells.length : ℚ))

/-- Downstream notification, from types::ClientMsg as constructed in
src/src/main.rs: block number and matrix dimensions. -/
structure ClientMsg where
  num : Nat
  max_rows : Nat
  max_cols : Nat
deriving DecidableEq

/-- Fields of types::RuntimeConfig read by the block loop of
src/src/main.rs: the RPC endpoint and the configured application id. The
websocket endpoint and the startup-only fields are not part of the loop
and are omitted. -/
structure RuntimeConfig where
  full_node_rpc : String
  app_id : Nat

/-- One successfully deserialized header notification, holding the fields
of types::Response that the loop body of src/src/main.rs reads:
params.result.number (a hex string), params.result.extrinsics_root rows,
cols and commitment, and params.result.app_data_lookup.index (modelled as
a list of id and offset pairs). -/
structure HeaderFrame where
  number : String
  rows : Nat
  cols : Nat
  commitment : List Nat
  app_index : List (Nat × Nat)

/-- External collaborators of the block loop: the RPC proof fetch, which
can fail, and the pure proof verifier returning a verified count. The RPC
cell payload is opaque to the loop and modelled as a list of bytes. -/
structure MainEnv where
  get_kate_proof : String → Nat → Nat → Nat → Bool → Except Unit (List Nat)
  verify_proof : Nat → Nat → List Nat → List Nat → Nat

/-- Strips every leading occurrence of the two characters 0 and x, as the
Rust trim_start_matches with pattern 0x does in src/src/main.rs (repeated
prefixes are all removed). -/
def trimStartMatches0x : List Char → List Char
  | '0' :: 'x' :: rest => trimStartMatches0x rest
  | l => l

/-- Value of a hexadecimal digit character, as accepted by the Rust
char::to_digit with radix 16: decimal digits and letters a to f in either
case. -/
def hexDigitVal? (c : Char) : Option Nat :=
  if '0' ≤ c ∧ c ≤ '9' then some (c.toNat - 48)
  else if 'a' ≤ c ∧ c ≤ 'f' then some (c.toNat - 97 + 10)
  else if 'A' ≤ c ∧ c ≤ 'F' then some (c.toNat - 65 + 10)
  else none

/-- Digit accumulation loop of the radix-16 parse, failing on a non-digit
character and on overflow past the u64 range, as the Rust
u64::from_str_radix does. -/
def fromStrRadix16Go (acc : Nat) : List Char → Option Nat
  | [] => some acc
  | c :: cs =>
    match hexDigitVal? c with
    | none => none
    | some d =>
      let acc := acc * 16 + d
      if acc < 2 ^ 64 then fromStrRadix16Go acc cs else none

/-- Translated from the Rust u64::from_str_radix with radix 16 as called
in src/src/main.rs: an optional leading plus sign, then at least one hex
digit, no other characters, and the value must fit in 64 bits. -/
def from_str_radix16 (s : List Char) : Option Nat :=
  let digits := match s with
    | '+' :: rest => rest
    | rest => rest
  if digits.isEmpty then none else fromStrRadix16Go 0 digits

/-- Observable outcome of one iteration of the header loop of
src/src/main.rs on one websocket frame. A frame that fails JSON
deserialization is logged and skipped, and the loop continues. A panicked
outcome models an unwrap of an error (hex parse failure, RPC failure, or
the confidence overflow), which aborts the process; effects already
performed before the panic are lost with the process and not recorded.
The ok outcome carries the store upsert of block number to verified
count, the verified count of the optional deep verification pass (whose
value the source only logs), and the downstream notification. -/
inductive StepOutcome where
  | skipped : StepOutcome
  | panicked : StepOutcome
  | ok (stored : Nat × Nat) (deepVerified : Option Nat) (notified : ClientMsg) :
      StepOutcome
deriving DecidableEq

/-- Translated from the body of the read_future loop in src/src/main.rs.
The frame argument is the serde deserialization result: none for a frame
that does not deserialize (the Err arm, which logs and continues), some
for a parsed header. The loop then unwraps the hex parse of the block
number, unwraps the RPC sample fetch, verifies, computes the confidence
(see calculate_confidence for the overflow model), upserts the store, and,
only when the app index is nonempty and the confidence exceeds 92 and the
configured app id is positive, re-fetches the full cell set and re-runs
verification without using its result further; finally it sends the
downstream notification. The source also renders the serialised
confidence for logging between the store upsert and the app check; that
computation has no observable effect on the outcome and is covered
separately by the serialisation theorems. -/
def process_frame (cfg : RuntimeConfig) (env : MainEnv)
    (frame : Option HeaderFrame) : StepOutcome :=
  match frame with
  | none => StepOutcome.skipped
  | some f =>
    match from_str_radix16 (trimStartMatches0x f.number.data) with
    | none => StepOutcome.panicked
    | some num =>
      match env.get_kate_proof cfg.full_node_rpc num f.rows f.cols false with
      | Except.error _ => StepOutcome.panicked
      | Except.ok cells =>
        let count := env.verify_proof f.rows f.cols cells f.commitment
        match calculate_confidence count with
        | none => StepOutcome.panicked
        | some conf =>
          if ¬ f.app_index.isEmpty then
            if 92 < conf ∧ 0 < cfg.app_id then
              match env.get_kate_proof cfg.full_node_rpc num f.rows f.cols true with
              | Except.error _ => StepOutcome.panicked
              | Except.ok req_cells =>
                StepOutcome.ok (num, count)
                  (some (env.verify_proof f.rows f.cols req_cells f.commitment))
                  { num := num, max_rows := f.rows, max_cols := f.cols }
            else
              StepOutcome.ok (num, count) none
                { num := num, max_rows := f.rows, max_cols := f.cols }
          else
            StepOutcome.ok (num, count) none
              { num := num, max_rows := f.rows, max_cols := f.cols }

/-! ## Theorems -/

/-- Claim C1, counterexample: at count 32 the function does not return the
value 100 times (1 minus 2 to the minus 32) demanded by the claim, because
the u32 power in the source overflows there; the claim is therefore false
over the whole unsigned domain. -/
theorem calculate_confidence_whole_domain_cex :
    calculate_confidence 32 ≠ some (100 * (1 - 1 / 2 ^ 32)) := by
  simp [calculate_confidence]

/-- Claim C1, amended: for counts below 32 (where the u32 power in the
source does not overflow) the confidence equals 100 times (1 minus 2 to
the minus count); it is 0 at count 0, 96.875 at count 5, strictly
increasing on that range, and always strictly below 100; for counts of 32
and above the u32 power overflows and no finite value is produced. -/
theorem calculate_confidence_formula :
    calculate_confidence 0 = some 0 ∧
    calculate_confidence 5 = some 96.875 ∧
    (∀ c, c < 32 → calculate_confidence c = some (100 * (1 - 1 / 2 ^ c))) ∧
    (∀ c d x y, c < d → d < 32 →
      calculate_confidence c = some x → calculate_confidence d = some y →
      x < y) ∧
    (∀ c x, calculate_confidence c = some x → x < 100) ∧
    (∀ c, 32 ≤ c → calculate_confidence c = none) := by
  refine ⟨by norm_num [calculate_confidence], by norm_num [calculate_confidence], ?_, ?_, ?_, ?_⟩
  · intro c hc
    simp [calculate_confidence, hc]
  · intro c d x y hcd hd hx hy
    have hc : c < 32 := lt_trans hcd hd
    simp only [calculate_confidence, if_pos hc, if_pos hd, Option.some_inj] at hx hy
    subst hx
    subst hy
    have hpow : (2 : ℚ) ^ c < 2 ^ d := by
      have h2 : (1 : ℚ) < 2 := by norm_num
      exact pow_lt_pow_right₀ h2 hcd
    have hposc : (0 : ℚ) < 2 ^ c := by positivity
    have hinv : 1 / (2 : ℚ) ^ d < 1 / 2 ^ c := one_div_lt_one_div_of_lt hposc hpow
    linarith
  · intro c x hx
    by_cases hc : c < 32
    · simp only [calculate_confidence, if_pos hc, Option.some_inj] at hx
      subst hx
      have hposc : (0 : ℚ) < 1 / 2 ^ c := by positivity
      linarith
    · simp [calculate_confidence, hc] at hx
  · intro c hc
    simp [calculate_confidence]
    omega

/-- Claim C1, witness: the amended theorem applied at concrete counts. -/
theorem calculate_confidence_formula_witness :
    calculate_confidence 3 = some (100 * (1 - 1 / 2 ^ 3)) ∧
    (75 : ℚ) < 775 / 8 ∧
    (775 / 8 : ℚ) < 100 ∧
    calculate_confidence 40 = none := by
  have h := calculate_confidence_formula
  refine ⟨h.2.2.1 3 (by norm_num), ?_, ?_, h.2.2.2.2.2 40 (by norm_num)⟩
  · exact h.2.2.2.1 2 5 75 (775 / 8) (by norm_num) (by norm_num)
      (by norm_num [calculate_confidence]) (by norm_num [calculate_confidence])
  · exact h.2.2.2.2.1 5 (775 / 8) (by norm_num [calculate_confidence])

/-- Helper: the character of a decimal digit decodes back to the digit
under the fold step of parseDecimal. -/
theorem digitChar_decode {d : Nat} (h : d < 10) : (Nat.digitChar d).toNat - 48 = d := by
  interval_cases d <;> rfl

/-- Helper: folding the parse step over a rendered digit list, most
significant digit first, recovers the positional value of the digits. -/
theorem foldl_digits_eq (L : List Nat) (acc : Nat) (h : ∀ d ∈ L, d < 10) :
    (L.reverse.map Nat.digitChar).foldl (fun n c => n * 10 + (c.toNat - 48)) acc
      = acc * 10 ^ L.length + Nat.ofDigits 10 L := by
  induction L generalizing acc with
  | nil => simp
  | cons d L ih =>
    have hd : d < 10 := h d (List.mem_cons_self d L)
    have hL : ∀ x ∈ L, x < 10 := fun x hx => h x (List.mem_cons_of_mem d hx)
    simp only [List.reverse_cons, List.map_append, List.map_cons, List.map_nil,
      List.foldl_append, List.foldl_cons, List.foldl_nil, ih acc hL,
      digitChar_decode hd, Nat.ofDigits_cons, List.length_cons]
    ring

/-- Helper: the decimal parse inverts the decimal rendering. -/
theorem parseDecimal_toDecimalString (n : Nat) :
    parseDecimal (toDecimalString n) = n := by
  by_cases hn : n = 0
  · subst hn
    decide
  · have hdig : ∀ d ∈ Nat.digits 10 n, d < 10 :=
      fun d hd => Nat.digits_lt_base (by norm_num) hd
    have hdata : (toDecimalString n).data = (Nat.digits 10 n).reverse.map Nat.digitChar := by
      simp [toDecimalString, hn, List.asString]
    simp only [parseDecimal, hdata, foldl_digits_eq _ 0 hdig, Nat.zero_mul,
      Nat.zero_add, Nat.ofDigits_digits]

/-- Helper: a disjoint shift-or on naturals is positional addition. -/
theorem shiftLeft_lor_eq_add (b f : Nat) (hf : f < 2 ^ 32) :
    b <<< 32 ||| f = 2 ^ 32 * b + f := by
  rw [Nat.shiftLeft_eq, Nat.mul_comm b (2 ^ 32), ← Nat.mul_add_lt_is_or hf]

/-- Helper: the packed factor of the confidence serialisation is below
2 to the 32 whenever the confidence factor is below 100. -/
theorem packed_factor_lt (conf : ℚ) (h1 : conf < 100) :
    Int.toNat ⌊(10 : ℚ) ^ 7 * conf⌋ < 2 ^ 32 := by
  have hq : (10 : ℚ) ^ 7 * conf < 10 ^ 9 := by nlinarith
  have hfloor : ⌊(10 : ℚ) ^ 7 * conf⌋ < 10 ^ 9 := by
    rw [Int.floor_lt]
    push_cast
    exact hq
  omega

/-- Claim C5: for every block number and confidence factor in the range
0 to 100, the serialised confidence is the decimal string of the
arbitrary-precision value block shifted left by 32 or-ed with the floor of
the factor times 10 to the 7; parsing the string back and shifting right
by 32 recovers the block exactly, and the low 32 bits are the packed
factor. -/
theorem serialised_confidence_roundtrip (block : Nat) (conf : ℚ)
    (h0 : 0 ≤ conf) (h1 : conf < 100) :
    serialised_confidence block conf
        = toDecimalString (block <<< 32 ||| Int.toNat ⌊(10 : ℚ) ^ 7 * conf⌋) ∧
    parseDecimal (serialised_confidence block conf) = serialisedValue block conf ∧
    serialisedValue block conf >>> 32 = block ∧
    serialisedValue block conf % 2 ^ 32 = Int.toNat ⌊(10 : ℚ) ^ 7 * conf⌋ := by
  have hf : Int.toNat ⌊(10 : ℚ) ^ 7 * conf⌋ < 2 ^ 32 := packed_factor_lt conf h1
  have hval : serialisedValue block conf
      = 2 ^ 32 * block + Int.toNat ⌊(10 : ℚ) ^ 7 * conf⌋ := by
    rw [serialisedValue, shiftLeft_lor_eq_add _ _ hf]
  refine ⟨rfl, parseDecimal_toDecimalString _, ?_, ?_⟩
  · rw [hval, Nat.shiftRight_eq_div_pow, Nat.mul_add_div (Nat.two_pow_pos 32),
      Nat.div_eq_of_lt hf, Nat.add_zero]
  · rw [hval, Nat.mul_add_mod, Nat.mod_eq_of_lt hf]

/-- Claim C5, witness: the round trip applied at block 7 and the concrete
confidence 96.875. -/
theorem serialised_confidence_roundtrip_witness :
    serialisedValue 7 (775 / 8) >>> 32 = 7 ∧
    serialisedValue 7 (775 / 8) % 2 ^ 32 = Int.toNat ⌊(10 : ℚ) ^ 7 * (775 / 8)⌋ :=
  ⟨(serialised_confidence_roundtrip 7 (775 / 8) (by norm_num) (by norm_num)).2.2.1,
   (serialised_confidence_roundtrip 7 (775 / 8) (by norm_num) (by norm_num)).2.2.2⟩

/-! ### Infrastructure lemmas for the fetch batch -/

/-- Helper: the chunk worker flattens back to its input for every fuel. -/
theorem chunksOfAux_flatten (n : Nat) : ∀ (fuel : Nat) (l : List α),
    (chunksOfAux n fuel l).flatten = l
  | fuel, [] => by cases fuel <;> simp [chunksOfAux]
  | 0, _ :: _ => by simp [chunksOfAux]
  | fuel + 1, x :: xs => by
    simp only [chunksOfAux, List.flatten_cons, List.cons_append,
      chunksOfAux_flatten n fuel (xs.drop (n - 1)), List.take_append_drop]

/-- Helper: the chunks of a list flatten back to the list. -/
theorem chunksOf_flatten (n : Nat) (l : List α) : (chunksOf n l).flatten = l :=
  chunksOfAux_flatten n l.length l

/-- Helper: collecting a successful list of results yields exactly the
list of payloads. -/
theorem collectExcept_ok {ε α : Type} : ∀ (l : List (Except ε α)) (out : List α),
    collectExcept l = Except.ok out → l = out.map Except.ok
  | [], out, h => by
    simp only [collectExcept, Except.ok.injEq] at h
    subst h
    rfl
  | Except.error e :: rest, out, h => by
    simp [collectExcept] at h
  | Except.ok a :: rest, out, h => by
    simp only [collectExcept] at h
    cases hr : collectExcept rest with
    | error e => rw [hr] at h; cases h
    | ok as_ =>
      rw [hr] at h
      simp only [Except.ok.injEq] at h
      subst h
      simp only [List.map_cons, List.cons.injEq, true_and]
      exact collectExcept_ok rest as_ hr

/-- Helper: collect distributes over append, with the first error of the
left part taking precedence. -/
theorem collectExcept_append {ε α : Type} (l₁ l₂ : List (Except ε α)) :
    collectExcept (l₁ ++ l₂)
      = match collectExcept l₁, collectExcept l₂ with
        | Except.error e, _ => Except.error e
        | Except.ok _, Except.error e => Except.error e
        | Except.ok a, Except.ok b => Except.ok (a ++ b) := by
  induction l₁ with
  | nil =>
    simp only [List.nil_append, collectExcept]
    cases collectExcept l₂ <;> rfl
  | cons x xs ih =>
    cases x with
    | error e => rfl
    | ok a =>
      simp only [List.cons_append, collectExcept, List.append_eq]
      rw [ih]
      cases collectExcept xs <;> cases collectExcept l₂ <;> rfl

/-- Helper: the commands of one fetch chunk are one quorum-one get per
position of the chunk, keyed by the reference. -/
theorem fetchChunk_fst (env : DhtEnv) (block : Nat) : ∀ (chunk : List Position),
    (fetchChunk env block chunk).1
      = chunk.map (fun p => Command.getKadRecord (p.reference block) Quorum.one)
  | [] => rfl
  | p :: ps => by
    have ih := fetchChunk_fst env block ps
    simp only [fetchChunk, List.map_cons, List.flatten_cons] at ih ⊢
    rw [← ih]
    rfl

/-- Helper: the result of one fetch chunk is the collected per-position
results. -/
theorem fetchChunk_snd (env : DhtEnv) (block : Nat) (chunk : List Position) :
    (fetchChunk env block chunk).2
      = collectExcept (chunk.map (fun p => (fetch_cell_from_dht env block p).2)) := by
  simp only [fetchChunk, List.map_map]
  rfl

/-- Helper: the sequential chunk loop returns the same result as
collecting the per-position results over the flattened chunk list; in
particular chunking does not change which batches succeed and with which
cells. -/
theorem fetchChunksLoop_eq_collect (env : DhtEnv) (block : Nat) :
    ∀ (cs : List (List Position)),
    (fetchChunksLoop env block cs).2
      = collectExcept
          ((cs.flatten).map (fun p => (fetch_cell_from_dht env block p).2))
  | [] => rfl
  | chunk :: rest => by
    have ih := fetchChunksLoop_eq_collect env block rest
    simp only [fetchChunksLoop, List.flatten_cons, List.map_append,
      collectExcept_append, ← fetchChunk_snd env block chunk, ← ih]
    cases (fetchChunk env block chunk).2 <;>
      cases (fetchChunksLoop env block rest).2 <;> rfl

/-- Helper: every command issued by the chunk loop is a quorum-one get. -/
theorem fetchChunksLoop_trace (env : DhtEnv) (block : Nat) :
    ∀ (cs : List (List Position)) (cmd : Command),
    cmd ∈ (fetchChunksLoop env block cs).1 →
    ∃ k, cmd = Command.getKadRecord k Quorum.one
  | [], cmd, h => by cases h
  | chunk :: rest, cmd, h => by
    have hstep : ∀ c, c ∈ (fetchChunk env block chunk).1 →
        ∃ k, c = Command.getKadRecord k Quorum.one := by
      intro c hc
      rw [fetchChunk_fst] at hc
      obtain ⟨p, _, rfl⟩ := List.mem_map.mp hc
      exact ⟨p.reference block, rfl⟩
    simp only [fetchChunksLoop] at h
    cases hc : (fetchChunk env block chunk).2 with
    | error e =>
      rw [hc] at h
      exact hstep cmd h
    | ok cells =>
      rw [hc] at h
      simp only [List.mem_append] at h
      cases h with
      | inl h => exact hstep cmd h
      | inr h => exact fetchChunksLoop_trace env block rest cmd h

/-- Alignment predicate between an optional fetched cell and the input
position it was fetched for: when the cell is present its position is the
input position. -/
def cellAligned (oc : Option Cell) (p : Position) : Prop :=
  ∀ c, oc = some c → c.position = p

/-- Helper: a successful per-cell fetch returns a cell carrying the
queried position. -/
theorem fetch_cell_ok_position (env : DhtEnv) (block : Nat) (p : Position)
    (oc : Option Cell)
    (h : (fetch_cell_from_dht env block p).2 = Except.ok oc) : cellAligned oc p := by
  intro c hc
  subst hc
  cases hr : env.getResponse (p.reference block) with
  | error e => simp [fetch_cell_from_dht, hr] at h
  | ok recs =>
    cases recs with
    | nil => simp [fetch_cell_from_dht, hr] at h
    | cons r rs =>
      simp only [fetch_cell_from_dht, hr] at h
      by_cases hlen : r.record.value.length = COMMITMENT_SIZE + CHUNK_SIZE
      · rw [if_pos hlen] at h
        simp only [Except.ok.injEq, Option.some.injEq] at h
        rw [← h]
      · rw [if_neg hlen] at h
        cases h

/-- Helper: from the map equality of a successful collect, every input
maps to a successful result, related to the aligned output. -/
theorem map_eq_map_ok_forall2 {ε α β : Type} {f : β → Except ε α} {R : α → β → Prop}
    (hR : ∀ b a, f b = Except.ok a → R a b) :
    ∀ (bs : List β) (as_ : List α),
      bs.map f = as_.map Except.ok → List.Forall₂ R as_ bs
  | [], [], _ => List.Forall₂.nil
  | [], _ :: _, h => by cases h
  | _ :: _, [], h => by cases h
  | b :: bs, a :: as_, h => by
    simp only [List.map_cons, List.cons.injEq] at h
    exact List.Forall₂.cons (hR b a h.1) (map_eq_map_ok_forall2 hR bs as_ h.2)

/-- Helper: every input of a successful collect has a successful result. -/
theorem forall_ok_of_map_eq {ε α β : Type} {f : β → Except ε α} :
    ∀ (bs : List β) (as_ : List α), bs.map f = as_.map Except.ok →
      ∀ b ∈ bs, ∃ a, f b = Except.ok a
  | [], _, _, b, hb => by cases hb
  | _ :: _, [], h, _, _ => by cases h
  | b :: bs, a :: as_, h, b0, hb0 => by
    simp only [List.map_cons, List.cons.injEq] at h
    cases hb0 with
    | head => exact ⟨a, h.1⟩
    | tail _ hmem => exact forall_ok_of_map_eq bs as_ h.2 b0 hmem

/-- Helper: the positions of the present cells followed by the positions
of the missing cells are a permutation of the input positions. -/
theorem partition_perm : ∀ {cells : List (Option Cell)} {ps : List Position},
    List.Forall₂ cellAligned cells ps →
    ((cells.filterMap id).map Cell.position
      ++ ((cells.zip ps).filter (fun cp => cp.1.isNone)).map Prod.snd).Perm ps := by
  intro cells ps h
  induction h with
  | nil => simp
  | @cons oc p cells' ps' hR _ ih =>
    cases oc with
    | none =>
      simp only [List.filterMap_cons, id, List.zip_cons_cons, List.filter_cons,
        Option.isNone_none, List.map_cons]
      exact List.perm_middle.trans (ih.cons p)
    | some c =>
      have hp : c.position = p := hR c rfl
      simp only [List.filterMap_cons, id, List.zip_cons_cons, List.filter_cons,
        Option.isNone_some, List.map_cons, List.cons_append, hp]
      simp only [Bool.false_eq_true, if_false]
      exact ih.cons p

/-- Helper: order preservation of the partition: the positions of the
present cells, and the missing positions, are each sublists of the input
positions. -/
theorem partition_sublist : ∀ {cells : List (Option Cell)} {ps : List Position},
    List.Forall₂ cellAligned cells ps →
    ((cells.filterMap id).map Cell.position).Sublist ps ∧
    (((cells.zip ps).filter (fun cp => cp.1.isNone)).map Prod.snd).Sublist ps := by
  intro cells ps h
  induction h with
  | nil => exact ⟨List.Sublist.refl [], List.Sublist.refl []⟩
  | @cons oc p cells' ps' hR _ ih =>
    cases oc with
    | none =>
      simp only [List.filterMap_cons, id, List.zip_cons_cons, List.filter_cons,
        Option.isNone_none, List.map_cons]
      exact ⟨ih.1.cons p, ih.2.cons₂ p⟩
    | some c =>
      have hp : c.position = p := hR c rfl
      simp only [List.filterMap_cons, id, List.zip_cons_cons, List.filter_cons,
        Option.isNone_some, List.map_cons, hp]
      simp only [Bool.false_eq_true, if_false]
      exact ⟨ih.1.cons₂ p, ih.2.cons p⟩

/-- Helper: an input position whose per-cell fetch succeeded with no
record ends up among the missing positions of the partition. -/
theorem mem_unfetched_of_none {f : Position → Except String (Option Cell)} :
    ∀ (ps : List Position) (cells : List (Option Cell)),
      ps.map f = cells.map Except.ok →
      ∀ p ∈ ps, f p = Except.ok none →
        p ∈ ((cells.zip ps).filter (fun cp => cp.1.isNone)).map Prod.snd
  | [], _, _, p, hp, _ => by cases hp
  | _ :: _, [], h, _, _, _ => by cases h
  | q :: qs, oc :: cs, h, p, hp, hnone => by
    simp only [List.map_cons, List.cons.injEq] at h
    cases hp with
    | head =>
      have hoc : oc = none := by
        have h2 := h.1.symm.trans hnone
        simpa using h2
      subst hoc
      simp [List.zip_cons_cons, List.filter_cons]
    | tail _ hmem =>
      have hrec := mem_unfetched_of_none qs cs h.2 p hmem hnone
      cases hoc : oc.isNone with
      | true => simp [List.zip_cons_cons, List.filter_cons, hoc, hrec]
      | false => simp [List.zip_cons_cons, List.filter_cons, hoc, hrec]

/-- Helper: a successful batch fetch decomposes into an aligned list of
per-position results, with the fetched cells and unfetched positions
computed from it exactly as in the source. -/
theorem fetch_cells_ok_parts (env : DhtEnv) (limit block : Nat)
    (positions : List Position) (fetched : List Cell) (unfetched : List Position)
    (h : (fetch_cells_from_dht env limit block positions).2
        = Except.ok (fetched, unfetched)) :
    ∃ cells : List (Option Cell),
      positions.map (fun p => (fetch_cell_from_dht env block p).2)
          = cells.map Except.ok ∧
      fetched = cells.filterMap id ∧
      unfetched = ((cells.zip positions).filter (fun cp => cp.1.isNone)).map
        Prod.snd := by
  cases hloop : (fetchChunksLoop env block (chunksOf limit positions)).2 with
  | error e => simp [fetch_cells_from_dht, hloop] at h
  | ok cells =>
    have hcoll := fetchChunksLoop_eq_collect env block (chunksOf limit positions)
    rw [hloop, chunksOf_flatten] at hcoll
    simp only [fetch_cells_from_dht, hloop, Except.ok.injEq, Prod.mk.injEq] at h
    exact ⟨cells, collectExcept_ok _ _ hcoll.symm, h.1.symm, h.2.symm⟩

/-- Claim C2: when a batch fetch succeeds, the positions of the fetched
cells together with the unfetched positions are a permutation of the
input positions (no duplicates beyond the input, no omissions), and every
input position whose query succeeded with zero matching records is a soft
miss placed into the unfetched list. The positive limit reflects the
precondition of the Rust chunks iterator. -/
theorem fetch_cells_partition (env : DhtEnv) (limit block : Nat)
    (positions : List Position) (fetched : List Cell) (unfetched : List Position)
    (hlim : 0 < limit)
    (h : (fetch_cells_from_dht env limit block positions).2
        = Except.ok (fetched, unfetched)) :
    (fetched.map Cell.position ++ unfetched).Perm positions ∧
    ∀ p ∈ positions, env.getResponse (p.reference block) = Except.ok [] →
      p ∈ unfetched := by
  obtain ⟨cells, hmap, hf, hu⟩ :=
    fetch_cells_ok_parts env limit block positions fetched unfetched h
  have halign : List.Forall₂ cellAligned cells positions :=
    map_eq_map_ok_forall2
      (fun p oc hpo => fetch_cell_ok_position env block p oc hpo)
      positions cells hmap
  constructor
  · rw [hf, hu]
    exact partition_perm halign
  · intro p hp hresp
    have hfp : (fetch_cell_from_dht env block p).2 = Except.ok none := by
      simp [fetch_cell_from_dht, hresp]
    rw [hu]
    exact mem_unfetched_of_none positions cells hmap p hp hfp

/-- Claim C2, witness: a two-position batch against a store answering one
of them; the theorem applies with the evaluated result. -/
theorem fetch_cells_partition_witness :
    (([⟨⟨0, 0⟩, List.replicate 80 0⟩] : List Cell).map Cell.position
        ++ [(⟨1, 1⟩ : Position)]).Perm [⟨0, 0⟩, ⟨1, 1⟩] ∧
    ∀ p ∈ ([⟨0, 0⟩, ⟨1, 1⟩] : List Position),
      (DhtEnv.mk
        (fun k => if k = "5:0:0"
          then Except.ok [⟨⟨"5:0:0", List.replicate 80 0, none, none⟩⟩]
          else Except.ok [])
        (fun _ => true)).getResponse (p.reference 5) = Except.ok [] →
      p ∈ [(⟨1, 1⟩ : Position)] :=
  fetch_cells_partition
    (DhtEnv.mk
      (fun k => if k = "5:0:0"
        then Except.ok [⟨⟨"5:0:0", List.replicate 80 0, none, none⟩⟩]
        else Except.ok [])
      (fun _ => true))
    2 5 [⟨0, 0⟩, ⟨1, 1⟩] [⟨⟨0, 0⟩, List.replicate 80 0⟩] [⟨1, 1⟩]
    (by norm_num) (by rfl)

/-- Claim C10: when a batch fetch succeeds, the fetched cells appear in
the relative order in which their positions appear in the input list, and
the unfetched positions likewise: both projections are sublists of the
input positions. -/
theorem fetch_cells_preserves_order (env : DhtEnv) (limit block : Nat)
    (positions : List Position) (fetched : List Cell) (unfetched : List Position)
    (hlim : 0 < limit)
    (h : (fetch_cells_from_dht env limit block positions).2
        = Except.ok (fetched, unfetched)) :
    (fetched.map Cell.position).Sublist positions ∧
    unfetched.Sublist positions := by
  obtain ⟨cells, hmap, hf, hu⟩ :=
    fetch_cells_ok_parts env limit block positions fetched unfetched h
  have halign : List.Forall₂ cellAligned cells positions :=
    map_eq_map_ok_forall2
      (fun p oc hpo => fetch_cell_ok_position env block p oc hpo)
      positions cells hmap
  rw [hf, hu]
  exact partition_sublist halign

/-- Claim C10, witness: a three-position batch with the middle position
missing; the theorem applies with the evaluated result. -/
theorem fetch_cells_preserves_order_witness :
    (([⟨⟨0, 0⟩, List.replicate 80 1⟩, ⟨⟨2, 2⟩, List.replicate 80 1⟩] :
        List Cell).map Cell.position).Sublist [⟨0, 0⟩, ⟨1, 1⟩, ⟨2, 2⟩] ∧
    ([(⟨1, 1⟩ : Position)]).Sublist [⟨0, 0⟩, ⟨1, 1⟩, ⟨2, 2⟩] :=
  fetch_cells_preserves_order
    (DhtEnv.mk
      (fun k => if k = "7:1:1" then Except.ok []
        else Except.ok [⟨⟨k, List.replicate 80 1, none, none⟩⟩])
      (fun _ => true))
    2 7 [⟨0, 0⟩, ⟨1, 1⟩, ⟨2, 2⟩]
    [⟨⟨0, 0⟩, List.replicate 80 1⟩, ⟨⟨2, 2⟩, List.replicate 80 1⟩]
    [⟨1, 1⟩] (by norm_num) (by rfl)

/-- Claim C4, counterexample: the source inspects only the first record
of a response; a batch in which a query returns a well-formed first
record followed by a record of the wrong length succeeds and silently
ignores the malformed record, contradicting the claim that any returned
record of the wrong length aborts the batch. -/
theorem fetch_wrong_length_second_record_cex :
    ((⟨⟨"0:0:0", [0], none, none⟩⟩ : PeerRecord)).record.value.length
        ≠ COMMITMENT_SIZE + CHUNK_SIZE ∧
    (DhtEnv.mk
      (fun _ => Except.ok
        [⟨⟨"0:0:0", List.replicate 80 0, none, none⟩⟩,
         ⟨⟨"0:0:0", [0], none, none⟩⟩])
      (fun _ => true)).getResponse "0:0:0"
      = Except.ok
        [⟨⟨"0:0:0", List.replicate 80 0, none, none⟩⟩,
         ⟨⟨"0:0:0", [0], none, none⟩⟩] ∧
    (fetch_cells_from_dht
      (DhtEnv.mk
        (fun _ => Except.ok
          [⟨⟨"0:0:0", List.replicate 80 0, none, none⟩⟩,
           ⟨⟨"0:0:0", [0], none, none⟩⟩])
        (fun _ => true))
      1 0 [⟨0, 0⟩]).2
      = Except.ok ([⟨⟨0, 0⟩, List.replicate 80 0⟩], []) := by
  refine ⟨by simp [COMMITMENT_SIZE, CHUNK_SIZE], rfl, by rfl⟩

/-- Claim C4, amended: the length check applies to the first record of a
response only (later records are ignored without inspection); whenever
the first record returned for some input position has a value whose
length differs from the 80-byte cell size, the entire batch call returns
an error, so no partial fetched and unfetched result is produced and the
malformed record is neither skipped nor counted as unfetched. -/
theorem fetch_first_record_wrong_length_aborts (env : DhtEnv)
    (limit block : Nat) (positions : List Position) (p : Position)
    (r : PeerRecord) (rs : List PeerRecord)
    (hp : p ∈ positions)
    (hresp : env.getResponse (p.reference block) = Except.ok (r :: rs))
    (hlen : r.record.value.length ≠ COMMITMENT_SIZE + CHUNK_SIZE) :
    ∃ e, (fetch_cells_from_dht env limit block positions).2 = Except.error e := by
  cases hres : (fetch_cells_from_dht env limit block positions).2 with
  | error e => exact ⟨e, rfl⟩
  | ok out =>
    exfalso
    obtain ⟨cells, hmap, _, _⟩ :=
      fetch_cells_ok_parts env limit block positions out.1 out.2 (by rw [hres])
    obtain ⟨oc, hoc⟩ := forall_ok_of_map_eq positions cells hmap p hp
    have hbad : (fetch_cell_from_dht env block p).2
        = Except.error "Cannot convert record into 80 bytes" := by
      simp [fetch_cell_from_dht, hresp, hlen]
    rw [hbad] at hoc
    cases hoc

/-- Claim C4, witness: the amended theorem applied to a one-position
batch whose single response record has a one-byte value. -/
theorem fetch_first_record_wrong_length_aborts_witness :
    ∃ e, (fetch_cells_from_dht
      (DhtEnv.mk (fun _ => Except.ok [⟨⟨"3:2:2", [9], none, none⟩⟩])
        (fun _ => true))
      1 3 [⟨2, 2⟩]).2 = Except.error e :=
  fetch_first_record_wrong_length_aborts
    (DhtEnv.mk (fun _ => Except.ok [⟨⟨"3:2:2", [9], none, none⟩⟩])
      (fun _ => true))
    1 3 [⟨2, 2⟩] ⟨2, 2⟩ ⟨⟨"3:2:2", [9], none, none⟩⟩ []
    (by simp) (by rfl) (by simp [COMMITMENT_SIZE, CHUNK_SIZE])

/-- Claim C9: every command issued by the batch fetch is a get with
quorum one, and every command issued by the batch insert is a put with
quorum one; no other quorum value is used by the batch operations. -/
theorem quorum_always_one (env : DhtEnv) (limit block ttl : Nat)
    (positions : List Position) (cells : List Cell) (cmd : Command) :
    (cmd ∈ (fetch_cells_from_dht env limit block positions).1 →
      ∃ k, cmd = Command.getKadRecord k Quorum.one) ∧
    (cmd ∈ (insert_into_dht env ttl block cells).1 →
      ∃ r, cmd = Command.putKadRecord r Quorum.one) := by
  constructor
  · intro h
    exact fetchChunksLoop_trace env block (chunksOf limit positions) cmd h
  · intro h
    cases cells with
    | nil => simp [insert_into_dht] at h
    | cons a l =>
      have hie : (a :: l).isEmpty = false := rfl
      simp only [insert_into_dht, hie, Bool.false_eq_true, if_false] at h
      obtain ⟨r, _, rfl⟩ := List.mem_map.mp h
      exact ⟨r, rfl⟩

/-- Claim C9, witness: the theorem applied to a one-position fetch and a
one-cell insert. -/
theorem quorum_always_one_witness :
    (∃ k, Command.getKadRecord ((Position.mk 0 0).reference 4) Quorum.one
        = Command.getKadRecord k Quorum.one) ∧
    (∃ r, Command.putKadRecord (DHTCell.dht_record ⟨⟨0, 0⟩, [1]⟩ 4 60) Quorum.one
        = Command.putKadRecord r Quorum.one) := by
  constructor
  · refine (quorum_always_one (DhtEnv.mk (fun _ => Except.ok []) (fun _ => true))
      1 4 60 [⟨0, 0⟩] [⟨⟨0, 0⟩, [1]⟩] _).1 ?_
    have h : (fetch_cells_from_dht
        (DhtEnv.mk (fun _ => Except.ok []) (fun _ => true)) 1 4 [⟨0, 0⟩]).1
        = [Command.getKadRecord ((Position.mk 0 0).reference 4) Quorum.one] := rfl
    rw [h]
    exact List.mem_singleton.mpr rfl
  · refine (quorum_always_one (DhtEnv.mk (fun _ => Except.ok []) (fun _ => true))
      1 4 60 [⟨0, 0⟩] [⟨⟨0, 0⟩, [1]⟩] _).2 ?_
    have h : (insert_into_dht
        (DhtEnv.mk (fun _ => Except.ok []) (fun _ => true)) 60 4 [⟨⟨0, 0⟩, [1]⟩]).1
        = [Command.putKadRecord (DHTCell.dht_record ⟨⟨0, 0⟩, [1]⟩ 4 60) Quorum.one] := rfl
    rw [h]
    exact List.mem_singleton.mpr rfl

/-- Claim C3: inserting an empty cell list returns exactly 1 with no
command issued; for a non-empty list one put is attempted per cell (the
batch always completes, with no retry and no rollback), and the returned
rate is the number of successful puts over the total, that is
(T - F) / T, which is 0 when every put fails. -/
theorem insert_into_dht_success_rate (env : DhtEnv) (ttl block : Nat)
    (cells : List Cell) :
    insert_into_dht env ttl block [] = ([], 1) ∧
    (cells ≠ [] →
      (insert_into_dht env ttl block cells).1
        = cells.map (fun c =>
            Command.putKadRecord (DHTCell.dht_record c block ttl) Quorum.one) ∧
      (insert_into_dht env ttl block cells).2
        = ((cells.length : ℚ)
            - (((cells.map (fun c => DHTCell.dht_record c block ttl)).filter
                (fun r => !env.putOk r)).length : ℚ)) / (cells.length : ℚ) ∧
      ((∀ c ∈ cells, env.putOk (DHTCell.dht_record c block ttl) = false) →
        (insert_into_dht env ttl block cells).2 = 0)) := by
  have hT : cells ≠ [] → ((cells.length : ℚ) ≠ 0) := by
    intro hne h0
    exact hne (List.length_eq_zero.mp (by exact_mod_cast h0))
  refine ⟨rfl, fun hne => ⟨?_, ?_, ?_⟩⟩
  · have hie : cells.isEmpty = false := by
      cases cells with
      | nil => exact absurd rfl hne
      | cons a l => rfl
    simp only [insert_into_dht, hie, Bool.false_eq_true, if_false, List.map_map]
    rfl
  · have hie : cells.isEmpty = false := by
      cases cells with
      | nil => exact absurd rfl hne
      | cons a l => rfl
    simp only [insert_into_dht, hie, Bool.false_eq_true, if_false]
    rw [sub_div, div_self (hT hne)]
  · intro hfail
    have hie : cells.isEmpty = false := by
      cases cells with
      | nil => exact absurd rfl hne
      | cons a l => rfl
    have hfilter : (cells.map (fun c => DHTCell.dht_record c block ttl)).filter
        (fun r => !env.putOk r)
        = cells.map (fun c => DHTCell.dht_record c block ttl) := by
      apply List.filter_eq_self.mpr
      intro r hr
      obtain ⟨c, hc, rfl⟩ := List.mem_map.mp hr
      simp [hfail c hc]
    simp only [insert_into_dht, hie, Bool.false_eq_true, if_false, hfilter,
      List.length_map]
    rw [div_self (hT hne)]
    ring

/-- Claim C3, witness: the theorem applied to a two-cell insert with one
failing put, and to the all-fail and empty cases. -/
theorem insert_into_dht_success_rate_witness :
    (insert_into_dht (DhtEnv.mk (fun _ => Except.ok []) (fun r => r.key = "9:0:0"))
        30 9 [] = ([], 1)) ∧
    ((insert_into_dht (DhtEnv.mk (fun _ => Except.ok []) (fun r => r.key = "9:0:0"))
        30 9 [⟨⟨0, 0⟩, [1]⟩, ⟨⟨1, 0⟩, [2]⟩]).2
      = (((2 : ℚ) - 1) / 2)) ∧
    ((insert_into_dht (DhtEnv.mk (fun _ => Except.ok []) (fun _ => false))
        30 9 [⟨⟨0, 0⟩, [1]⟩]).2 = 0) := by
  refine ⟨(insert_into_dht_success_rate
      (DhtEnv.mk (fun _ => Except.ok []) (fun r => r.key = "9:0:0")) 30 9 []).1,
    ?_, ?_⟩
  · have h := (insert_into_dht_success_rate
      (DhtEnv.mk (fun _ => Except.ok []) (fun r => r.key = "9:0:0")) 30 9
      [⟨⟨0, 0⟩, [1]⟩, ⟨⟨1, 0⟩, [2]⟩]).2 (by simp)
    rw [h.2.1]
    rfl
  · have h := (insert_into_dht_success_rate
      (DhtEnv.mk (fun _ => Except.ok []) (fun _ => false)) 30 9
      [⟨⟨0, 0⟩, [1]⟩]).2 (by simp)
    exact h.2.2 (by intro c _; rfl)

/-- Claim C6, counterexample: a frame that deserializes but whose block
number string is not valid hexadecimal makes the loop body panic (the
source unwraps the parse result), a fatal outcome; the claim that every
unparsable field is merely logged and skipped is therefore false. -/
theorem malformed_hex_number_panics_cex :
    process_frame ⟨"rpc", 0⟩
      ⟨fun _ _ _ _ _ => Except.ok [], fun _ _ _ _ => 0⟩
      (some ⟨"0xzz", 1, 1, [], []⟩) = StepOutcome.panicked := rfl

/-- Claim C6, amended: a frame that fails JSON deserialization is logged
and discarded without storing confidence or notifying downstream, and the
loop continues; but a frame that deserializes while its block number
field fails the hexadecimal parse is fatal: the loop body panics on the
unwrap instead of skipping the header. -/
theorem header_frame_error_handling (cfg : RuntimeConfig) (env : MainEnv) :
    process_frame cfg env none = StepOutcome.skipped ∧
    ∀ f : HeaderFrame,
      from_str_radix16 (trimStartMatches0x f.number.data) = none →
      process_frame cfg env (some f) = StepOutcome.panicked := by
  refine ⟨rfl, fun f hf => ?_⟩
  simp [process_frame, hf]

/-- Claim C6, witness: the amended theorem applied to a concrete
environment, an undeserializable frame, and a frame with a bad hex
number. -/
theorem header_frame_error_handling_witness :
    process_frame ⟨"r", 0⟩
      ⟨fun _ _ _ _ _ => Except.ok [], fun _ _ _ _ => 1⟩ none
        = StepOutcome.skipped ∧
    process_frame ⟨"r", 0⟩
      ⟨fun _ _ _ _ _ => Except.ok [], fun _ _ _ _ => 1⟩
      (some ⟨"0xg1", 2, 2, [], []⟩) = StepOutcome.panicked := by
  have h := header_frame_error_handling ⟨"r", 0⟩
    ⟨fun _ _ _ _ _ => Except.ok [], fun _ _ _ _ => 1⟩
  exact ⟨h.1, h.2 ⟨"0xg1", 2, 2, [], []⟩ rfl⟩

/-- Claim C7: under a parsed header, a successful sample fetch, an
in-range verified count, and a successful full fetch, the deep
verification pass runs exactly when the app index is nonempty, the
confidence exceeds 92, and the configured app id is positive; and in
every case the stored pair and the downstream notification carry the
first-pass verified count, unaffected by the deep pass. -/
theorem app_data_deep_verification (cfg : RuntimeConfig) (env : MainEnv)
    (f : HeaderFrame) (num : Nat) (conf : ℚ) (cells req_cells : List Nat)
    (hnum : from_str_radix16 (trimStartMatches0x f.number.data) = some num)
    (hrpc : env.get_kate_proof cfg.full_node_rpc num f.rows f.cols false
        = Except.ok cells)
    (hconf : calculate_confidence (env.verify_proof f.rows f.cols cells f.commitment)
        = some conf)
    (hdeep : env.get_kate_proof cfg.full_node_rpc num f.rows f.cols true
        = Except.ok req_cells) :
    process_frame cfg env (some f)
      = StepOutcome.ok (num, env.verify_proof f.rows f.cols cells f.commitment)
          (if ¬f.app_index.isEmpty = true ∧ 92 < conf ∧ 0 < cfg.app_id
            then some (env.verify_proof f.rows f.cols req_cells f.commitment)
            else none)
          ⟨num, f.rows, f.cols⟩ ∧
    ((if ¬f.app_index.isEmpty = true ∧ 92 < conf ∧ 0 < cfg.app_id
        then some (env.verify_proof f.rows f.cols req_cells f.commitment)
        else none).isSome = true
      ↔ (¬f.app_index.isEmpty = true ∧ 92 < conf ∧ 0 < cfg.app_id)) := by
  constructor
  · by_cases happ : f.app_index.isEmpty = true
    · simp [process_frame, hnum, hrpc, hconf, happ]
    · by_cases hcond : 92 < conf ∧ 0 < cfg.app_id
      · simp [process_frame, hnum, hrpc, hconf, happ, hcond, hdeep]
      · simp [process_frame, hnum, hrpc, hconf, happ, hcond]
  · by_cases hfull : ¬f.app_index.isEmpty = true ∧ 92 < conf ∧ 0 < cfg.app_id <;>
      simp [hfull]

/-- Claim C7, witness: the theorem applied to a block-42 header with a
nonempty app index, app id 1, and verified count 5 (confidence 96.875):
the deep pass runs, and the stored count and notification carry the
first-pass count 5, not the deep-pass count 7. -/
theorem app_data_deep_verification_witness :
    process_frame ⟨"rpc", 1⟩
      ⟨fun _ _ _ _ full => Except.ok (if full then [1] else []),
       fun _ _ cs _ => if cs.isEmpty then 5 else 7⟩
      (some ⟨"0x2a", 4, 4, [], [(1, 0)]⟩)
      = StepOutcome.ok (42, 5) (some 7) ⟨42, 4, 4⟩ := by
  have h := app_data_deep_verification ⟨"rpc", 1⟩
    ⟨fun _ _ _ _ full => Except.ok (if full then [1] else []),
     fun _ _ cs _ => if cs.isEmpty then 5 else 7⟩
    ⟨"0x2a", 4, 4, [], [(1, 0)]⟩ 42 (775 / 8) [] [1]
    rfl rfl (by norm_num [calculate_confidence]) rfl
  rw [h.1]
  norm_num

/-- Claim C8: key agreement between the put and the get path: the record
that the insert path writes for a cell has as key exactly the reference
string of the cell position and block (modelled from the spec for the
kate-recovery derivation), and the get that the fetch path issues for the
same position queries exactly that key; both paths are pure functions of
block and position. -/
theorem dht_key_agreement (env : DhtEnv) (block ttl : Nat) (c : Cell) :
    (DHTCell.dht_record c block ttl).key = c.position.reference block ∧
    (fetch_cell_from_dht env block c.position).1
      = [Command.getKadRecord (c.position.reference block) Quorum.one] :=
  ⟨rfl, rfl⟩

end AvailLight
